import Mathlib

/-!
Verification of the supernatural reactive-state library (Signal revision /
conflict model, notification scheduling, interception layer, Walker traversal)
against its natural-language specification.

The JavaScript source is shallowly embedded:

- mutable instance state becomes an explicit state record that every
  operation consumes and returns;
- the nondeterministic uuid generator (crypto.randomUUID) is modelled as an
  explicit supply of fresh strings consumed head-first;
- JavaScript "Object.is" change detection is modelled as decidable equality
  on the embedded value type (they agree on every value the model can hold;
  NaN and negative zero are outside the model);
- subscriber callbacks are opaque: they are identified by natural numbers
  and every delivery is appended to an observation log, so "subscriber f was
  invoked with value v" becomes "(f, v) is in the log";
- localStorage persistence and the cross-tab storage event listener are
  external I/O collaborators and are outside the model (the persistence and
  synchronization flags default to false in every claim scenario).
-/

/-- JavaScript string comparison (used for revId tie-breaks): lexicographic
on the sequence of code units.  Modelled on the underlying character list,
which agrees with JS for the identifiers involved (and Lean's opaque String
order does not reduce in the kernel). -/
def jsLt (a b : String) : Prop := a.data < b.data

instance (a b : String) : Decidable (jsLt a b) := by unfold jsLt; infer_instance

namespace Signal

/-- An envelope "\x7brev, revId, value\x7d" as consumed by Signal.sync; the same
shape is pushed onto the conflicts list. -/
structure Envelope (V : Type) where
  rev : Int
  revId : String
  value : V
deriving DecidableEq

/-- The mutable private state of one Signal instance (src/Signal.js).
Fields mirror the JS private fields: value, rev, revId, conflicts,
conflicting (options.conflicting; JS undefined is modelled as none),
useScheduling, changeSubscribers, readSubscribers, disposables,
scheduleQueue, schedulePending.  supply models the stream of fresh uuids,
log records every change-subscriber invocation (subscriber id, value). -/
structure State (V : Type) where
  value : V
  rev : Int := 1
  revId : String := ""
  conflicts : List (Envelope V) := []
  conflicting : Option Nat := none
  scheduling : Bool := false
  subscribers : List Nat := []
  readSubscribers : List Nat := []
  disposables : List Nat := []
  queue : List Nat := []
  pending : Bool := false
  supply : List String := []
  log : List (Nat × V) := []
deriving DecidableEq

variable {V : Type} [DecidableEq V]

/-- Draw one fresh uuid from the supply (models this.uuid()). -/
def drawUuid (s : State V) : String × List String :=
  (s.supply.headD "?", s.supply.tail)

/-- scheduler(subscriber): add the subscriber to the schedule queue (a JS Set:
insertion-ordered, duplicates ignored) and, if no flush is pending, mark a
flush as pending (queueMicrotask arms the single deferred flush task). -/
def scheduler (s : State V) (t : Nat) : State V :=
  let s := { s with queue := if t ∈ s.queue then s.queue else s.queue ++ [t] }
  if s.pending then s else { s with pending := true }

/-- The body of the queueMicrotask callback armed by scheduler: deliver the
value current at flush time to every queued subscriber, clear the queue,
reset the pending flag.  The callback reads the instance fields at the time
it fires, which is why it is modelled as an operation on the current state. -/
def microtaskFlush (s : State V) : State V :=
  { s with log := s.log ++ s.queue.map (fun t => (t, s.value)),
           queue := [], pending := false }

/-- notify(): with scheduling enabled, enqueue every change subscriber via
scheduler; otherwise invoke each change subscriber immediately with the
current value. -/
def notify (s : State V) : State V :=
  if s.scheduling then
    s.subscribers.foldl scheduler s
  else
    { s with log := s.log ++ s.subscribers.map (fun t => (t, s.value)) }

/-- set(newValue, rev = null, bump = true): no-op when newValue is identical
(Object.is) to the current value; otherwise store it, bump the revision (to
the explicit rev when one is passed, else rev + 1) and regenerate revId, then
notify.  The persistence branch (localStorage.setItem) is external I/O and
outside the model; every claim scenario has persistence disabled. -/
def set (s : State V) (newValue : V) (rev : Option Int := none) (bump : Bool := true) :
    State V :=
  if newValue = s.value then s
  else
    let s := { s with value := newValue }
    let s :=
      if bump then
        let (u, rest) := drawUuid s
        { s with rev := match rev with | some r => r | none => s.rev + 1,
                 revId := u, supply := rest }
      else s
    notify s

/-- The conflict-recording block of sync: push the record, then trim to the
configured capacity.  The JS guard is conflicts.length > this.conflicting,
which is always false when conflicting is undefined (the none case), so no
trim ever happens then; with a numeric capacity the splice keeps the newest
cap records by dropping from the front. -/
def conflictsAfterPush (s : State V) (e : Envelope V) : List (Envelope V) :=
  let conflicts := s.conflicts ++ [⟨e.rev, e.revId, e.value⟩]
  match s.conflicting with
  | some cap =>
      if conflicts.length > cap then conflicts.drop (conflicts.length - cap)
      else conflicts
  | none => conflicts

/-- sync(\x7brev, revId, value\x7d): when the incoming rev equals the local rev,
record a conflict (conflictsAfterPush); then accept via set(value, rev + 1)
when the incoming rev is higher, or equal with a strictly greater revId
(string comparison); otherwise ignore. -/
def sync (s : State V) (e : Envelope V) : State V :=
  let s :=
    if e.rev = s.rev then { s with conflicts := conflictsAfterPush s e }
    else s
  if e.rev > s.rev then
    set s e.value (some (e.rev + 1))
  else if e.rev = s.rev ∧ jsLt s.revId e.revId then
    set s e.value (some (e.rev + 1))
  else
    s

/-- dispose(): clear the read subscribers, clear the change subscribers, run
every disposable (the modelled disposables are opaque external cleanup
actions such as removing the storage event listener; running them does not
touch this state) and clear the disposables set.  Note the schedule queue and
the pending flag are NOT touched. -/
def dispose (s : State V) : State V :=
  { s with readSubscribers := [], subscribers := [], disposables := [] }

/-- The configuration record accepted by the Signal constructor.  A field
that the caller omits (JS undefined) is none. -/
structure Config where
  maxConflicting : Option Nat := none
  conflicting : Option Nat := none
  scheduling : Option Bool := none
deriving DecidableEq

/-- options.maxConflicting after Object.assign(\x7b\x7d, defaults, config):
the defaults entry is 16. -/
def optionsMaxConflicting (cfg : Config) : Nat :=
  cfg.maxConflicting.getD 16

/-- The Signal constructor.  Note the faithful slip of the source: the
defaults object defines maxConflicting: 16, but the constructor stores
this.conflicting = options.conflicting — a key that no default supplies —
so under default options the stored capacity is undefined (none), and the
merged options.maxConflicting value (optionsMaxConflicting) is never read. -/
def mk (v : V) (cfg : Config) (supply : List String) : State V :=
  { value := v,
    rev := 1,
    revId := supply.headD "?",
    supply := supply.tail,
    conflicts := [],
    conflicting := cfg.conflicting,
    scheduling := cfg.scheduling.getD false }

/-- The queue-insertion part of repeated scheduler calls: fold every
subscriber into the dedup queue, preserving insertion order (JS Set). -/
def addAll (q l : List Nat) : List Nat :=
  l.foldl (fun q t => if t ∈ q then q else q ++ [t]) q

end Signal

/-- Outcome of an operation routed through the watch proxy: ok, or the
TypeError raised when the trap invokes the undefined subscriberFn. -/
inductive JsOutcome where
  | ok
  | typeError
deriving DecidableEq

namespace Watcher

/-- The observable state of an Arr instance (src/Arr.js, the class at lines
4-20) together with its Signal: the Signal was constructed over the array
itself, so each delivery carries the array contents current at delivery
time.  Scheduling is off (no option set), so notification is immediate;
only the fields the interception claims observe are modelled. -/
structure ArrState where
  arr : List Int
  subscribers : List Nat
  log : List (Nat × List Int)
deriving DecidableEq

/-- The Signal.notify invoked by the Arr after-hooks: immediate delivery of
the current array contents to every change subscriber. -/
def notifyArr (s : ArrState) : ArrState :=
  { s with log := s.log ++ s.subscribers.map (fun t => (t, s.arr)) }

/-- The test derived from the bare RegExp member entry of Arr (the pattern
matching one or more digits, anchored): a nonempty digits-only member name.
Stated on the character list so it evaluates inside the kernel. -/
def numericTest (prop : String) : Bool :=
  !prop.data.isEmpty && prop.data.all Char.isDigit

/-- The mutating method names watched by Arr's second member entry. -/
def mutatorNames : List String :=
  ["push", "pop", "shift", "unshift", "splice", "sort", "reverse", "length"]

/-- The two normalized watcher configs of the Arr class at src/Arr.js lines
4-20, in declaration order.  numericBare comes from the bare RegExp entry,
which Watcher.watch normalizes with before, after and map all null;
mutatorNotify is the object entry whose after hook calls Signal.notify. -/
inductive ArrCfg where
  | numericBare
  | mutatorNotify
deriving DecidableEq

/-- Whether the normalized config carries an after hook. -/
def cfgHasAfter : ArrCfg → Bool
  | .numericBare => false
  | .mutatorNotify => true

/-- getWatcherConfig: the first config whose test accepts the member name
wins, in declaration order. -/
def getWatcherConfig (prop : String) : Option ArrCfg :=
  if numericTest prop then some .numericBare
  else if prop ∈ mutatorNames then some .mutatorNotify
  else none

/-- Parse a digits-only member name into an index. -/
def parseIndex (prop : String) : Nat :=
  prop.data.foldl (fun n c => n * 10 + (c.toNat - 48)) 0

/-- Reflect.set for a numeric-index member name on the array: write the
element at that index.  (The claim scenarios stay in range; JS hole
extension past the end is not exercised and not modelled.) -/
def jsSetIndex (a : List Int) (prop : String) (v : Int) : List Int :=
  a.set (parseIndex prop) v

/-- The original mutating Array methods reachable through the get trap, for
the operations the claims exercise (push with one argument; pop and reverse
shown for the same shape; the remaining mutators take argument lists the
scenarios do not use). -/
def applyMethod (prop : String) (a : List Int) (x : Int) : List Int :=
  if prop = "push" then a ++ [x]
  else if prop = "pop" then a.dropLast
  else if prop = "reverse" then a.reverse
  else a

/-- The set trap of Watcher.watch for a numeric-index write on Arr: when a
config matches, Reflect.set performs the write first, then the after hook
runs if the config has one (the numeric config of this Arr class has none),
and then subscriberFn(prop) is invoked — Arr passes no subscriberFn, so that
call throws a TypeError after the mutation (and any notification) already
happened; nothing is rolled back.  A non-matching write is a plain
Reflect.set. -/
def proxySet (s : ArrState) (prop : String) (v : Int) : ArrState × JsOutcome :=
  match getWatcherConfig prop with
  | some cfg =>
      let s1 := { s with arr := jsSetIndex s.arr prop v }
      let s2 := if cfgHasAfter cfg then notifyArr s1 else s1
      (s2, .typeError)
  | none => ({ s with arr := jsSetIndex s.arr prop v }, .ok)

/-- The get trap of Watcher.watch applied to a watched method and the
resulting invocation: run the before hook (none configured on Arr), map the
arguments (none), apply the original method to the underlying target, run
the after hook (the mutator config notifies), then invoke subscriberFn —
undefined for Arr, hence a TypeError after the mutation and notification.
Invoking a non-watched method is a plain call. -/
def proxyInvoke (s : ArrState) (prop : String) (x : Int) : ArrState × JsOutcome :=
  match getWatcherConfig prop with
  | some cfg =>
      let s1 := { s with arr := applyMethod prop s.arr x }
      let s2 := if cfgHasAfter cfg then notifyArr s1 else s1
      (s2, .typeError)
  | none => ({ s with arr := applyMethod prop s.arr x }, .ok)

end Watcher

namespace Obj

/-- The observable state of an Obj instance (src/Obj.js lines 4-20): its own
enumerable string-keyed properties, plus the attached Signal bookkeeping
(immediate notification; each delivery carries the current properties since
the Signal was constructed over the object itself). -/
structure ObjState where
  props : List (String × Int)
  subscribers : List Nat
  log : List (Nat × List (String × Int))
deriving DecidableEq

/-- The Signal.notify invoked by Obj's after hook. -/
def notifyObj (s : ObjState) : ObjState :=
  { s with log := s.log ++ s.subscribers.map (fun t => (t, s.props)) }

/-- Obj's single member test: a string member name not starting with an
underscore.  Stated on the character list so it evaluates in the kernel. -/
def objTest (prop : String) : Bool :=
  match prop.data with
  | c :: _ => c ≠ '_'
  | [] => true

/-- Ordinary JS own-property write: update the key in place or append it. -/
def setProp : List (String × Int) → String → Int → List (String × Int)
  | [], k, v => [(k, v)]
  | (k', v') :: rest, k, v =>
      if k' = k then (k, v) :: rest else (k', v') :: setProp rest k v

/-- The set trap of Watcher.watch on an Obj instance: a matching write (any
string key without the underscore prefix) performs the write, runs the after
hook — which delivers the Signal notification — and then invokes the
undefined subscriberFn, throwing a TypeError; the write and the delivery are
not rolled back.  Underscore-prefixed keys pass through untouched. -/
def proxySet (s : ObjState) (prop : String) (v : Int) : ObjState × JsOutcome :=
  if objTest prop then
    let s1 := { s with props := setProp s.props prop v }
    let s2 := notifyObj s1
    (s2, .typeError)
  else
    ({ s with props := setProp s.props prop v }, .ok)

/-- The data handling of the Obj constructor: "if (data) Object.apply(this,
data)" calls the Object constructor as a plain function through
Function.prototype.apply, passing the instance as the this-binding and data
as an array-like argument list.  Object invoked as a function ignores its
this-binding and returns a fresh object, which the constructor discards —
unlike Object.assign(this, data), nothing is copied onto the instance.  The
model returns the instance property list unchanged, which is exactly what
that call does to the instance. -/
def objectApplyDiscard (self : List (String × Int))
    (data : List (String × Int)) : List (String × Int) :=
  self

/-- The Obj constructor's effect on the instance's own enumerable
properties: starting from an empty fresh instance, a non-null data argument
goes through the discarded Object.apply call, a null/undefined one is
skipped. -/
def constructProps (data : Option (List (String × Int))) : List (String × Int) :=
  match data with
  | some d => objectApplyDiscard [] d
  | none => []

end Obj

namespace Walker

/-!
The Walker (src/Walker.js) traverses a JavaScript object graph.  Object
identity and cycles are heap phenomena, so the embedding makes the heap
explicit: a heap is a list of container nodes addressed by index, and a
value is either a primitive or a reference to a heap node.  The default
Walker configuration (depthFirst = false, walkReplacements = false) with
the default visitor (which always returns undefined) makes
_processNode(key, value, ...) equal to _walkValue(value, path, visited):
the visitor never replaces anything and the path argument is only ever
passed back to the visitor, so neither appears in the model.

The WeakMap of visited nodes maps each input container to its replacement
container in the output; the output containers are modelled as an output
heap populated in completion order, with a counter supplying fresh output
ids (mirroring the object allocations "const result = []" and so on).
JavaScript recursion has no fuel; the fuel argument is the embedding's
termination budget, and the cycle-safety theorem shows a budget of one per
heap node is always sufficient, which is exactly the claim that the
traversal cannot recurse forever.
-/

/-- A JavaScript value as seen by the Walker: a primitive, or a reference
to a container node in the heap. -/
inductive JVal where
  | prim : Int → JVal
  | ref : Nat → JVal
deriving DecidableEq

/-- A container node: an array of values, or a plain object mapping string
keys to values (Maps and Sets walk the same way and are omitted). -/
inductive HNode where
  | arr : List JVal → HNode
  | obj : List (String × JVal) → HNode
deriving DecidableEq

/-- The heap: node id i is the i-th entry. -/
abbrev Heap := List HNode

/-- The child values a container recurses into (for objects, the values of
its own enumerable properties, in key order, as Object.keys iteration). -/
def nodeChildren : HNode → List JVal
  | .arr es => es
  | .obj fs => fs.map Prod.snd

/-- Rebuild a container of the same shape around the walked children
(result[i] = ..., result[key] = ...). -/
def nodeRebuild : HNode → List JVal → HNode
  | .arr _, ws => .arr ws
  | .obj fs, ws => .obj ((fs.map Prod.fst).zip ws)

/-- The mutable traversal state: the visited map (input node id to output
node id), the output heap under construction, and the next fresh output
id. -/
structure WalkSt where
  visited : List (Nat × Nat)
  out : List (Nat × HNode)
  next : Nat
deriving DecidableEq

/-- The fresh traversal state walk() starts from (a new WeakMap). -/
def initSt : WalkSt := ⟨[], [], 0⟩

/-- Walk a list of child values left to right, threading the traversal
state, with f standing for the recursive _processNode call on each child. -/
def walkListWith (f : WalkSt → JVal → Option (JVal × WalkSt)) :
    WalkSt → List JVal → Option (List JVal × WalkSt)
  | st, [] => some ([], st)
  | st, v :: vs =>
    match f st v with
    | none => none
    | some (w, st1) =>
      match walkListWith f st1 vs with
      | none => none
      | some (ws, st2) => some (w :: ws, st2)

/-- _walkValue: primitives are returned as-is; a reference already in the
visited map short-circuits to its already-computed replacement; otherwise
the container is looked up, its replacement id is allocated and recorded in
the visited map BEFORE the children are walked (the source sets
visited.set(array, result) first for exactly this reason), the children are
walked, and the rebuilt container is stored in the output heap.  none is
returned only when the fuel budget or the heap lookup fails; the
cycle-safety theorem shows a budget of heap size never fails on a
well-formed heap. -/
def walkValue (h : Heap) : Nat → WalkSt → JVal → Option (JVal × WalkSt)
  | _, st, .prim n => some (.prim n, st)
  | fuel, st, .ref id =>
    match st.visited.lookup id with
    | some outId => some (.ref outId, st)
    | none =>
      match fuel with
      | 0 => none
      | fuel' + 1 =>
        match h.get? id with
        | none => none
        | some node =>
          let outId := st.next
          let st1 : WalkSt := ⟨(id, outId) :: st.visited, st.out, st.next + 1⟩
          match walkListWith (walkValue h fuel') st1 (nodeChildren node) with
          | none => none
          | some (ws, st2) =>
            some (.ref outId, ⟨st2.visited, (outId, nodeRebuild node ws) :: st2.out, st2.next⟩)

/-- walk(data) with the default visitor: walk the root value with a fresh
visited map and a fuel budget of one per heap node. -/
def walk (h : Heap) (v : JVal) : Option (JVal × WalkSt) :=
  walkValue h h.length initSt v

/-- A value is well-formed for a heap when its reference (if any) is a
valid node id. -/
def valOk (h : Heap) : JVal → Prop
  | .prim _ => True
  | .ref id => id < h.length

instance (h : Heap) : (v : JVal) → Decidable (valOk h v)
  | .prim _ => isTrue trivial
  | .ref id => Nat.decLt id h.length

/-- A heap is well-formed when every child reference of every node is a
valid node id. -/
def heapOk (h : Heap) : Prop :=
  ∀ node ∈ h, ∀ v ∈ nodeChildren node, valOk h v

instance (h : Heap) : Decidable (heapOk h) := by
  unfold heapOk; infer_instance

/-- The number of heap nodes not yet in the visited map: the termination
measure of the traversal. -/
def freshCount (h : Heap) (vis : List (Nat × Nat)) : Nat :=
  ((List.range h.length).filter (fun i => (vis.lookup i).isNone)).length

/-- The self-referencing array [1, itself]: the C7 witness heap. -/
def cyclicHeap : Heap := [HNode.arr [JVal.prim 1, JVal.ref 0]]

end Walker

/-- A concrete signal state at revision 3 with revId "b" (the C1 scenario). -/
def c1state : Signal.State Int :=
  { value := 0, rev := 3, revId := "b", supply := ["x"] }

/-- The C4 scenario: a scheduling-enabled signal holding 5 with one change
subscriber (id 7) registered. -/
def c4state : Signal.State Int :=
  { value := 5, scheduling := true, subscribers := [7] }

/-- The concrete state for the C6 witness. -/
def c6state : Signal.State Int :=
  { value := 42, rev := 9, revId := "q", subscribers := [1, 2] }

/-- The C9 counterexample state: capacity explicitly configured to 0. -/
def c9state : Signal.State Int :=
  { value := 0, rev := 1, revId := "a", conflicting := some 0, supply := ["z"] }

/-- The concrete state for the C9 amended-claim witness: revision 5,
default (undefined) conflict capacity. -/
def c9wstate : Signal.State Int :=
  { value := 0, rev := 5, revId := "a" }

/-- The visited map only ever grows during a walk. -/
def Walker.visitedLe (st st' : Walker.WalkSt) : Prop :=
  ∀ i, (st.visited.lookup i).isSome → (st'.visited.lookup i).isSome

theorem Signal.scheduler_eq {V : Type} [DecidableEq V] (s : State V) (t : Nat) :
    scheduler s t =
      { s with queue := if t ∈ s.queue then s.queue else s.queue ++ [t],
               pending := true } := by
  by_cases hp : s.pending <;> simp [scheduler, hp]

theorem Signal.foldl_scheduler_spec {V : Type} [DecidableEq V] (l : List Nat) : ∀ s : State V,
    List.foldl scheduler s l =
      { s with queue := addAll s.queue l,
               pending := s.pending || !l.isEmpty } := by
  induction l with
  | nil => intro s; simp [addAll]
  | cons t l ih =>
    intro s
    rw [List.foldl_cons, scheduler_eq, ih]
    simp [addAll, List.foldl_cons]

theorem Signal.notify_sched {V : Type} [DecidableEq V] (s : State V) (hs : s.scheduling = true) :
    notify s =
      { s with queue := addAll s.queue s.subscribers,
               pending := s.pending || !s.subscribers.isEmpty } := by
  simp [notify, hs, foldl_scheduler_spec]

theorem Signal.set_bump_eq {V : Type} [DecidableEq V] (s : State V) (v : V) (r : Option Int) (hne : v ≠ s.value) :
    set s v r =
      notify { s with value := v,
                      rev := match r with | some x => x | none => s.rev + 1,
                      revId := s.supply.headD "?", supply := s.supply.tail } := by
  unfold set drawUuid
  rw [if_neg hne]
  rfl

theorem Signal.set_sched_eq {V : Type} [DecidableEq V] (s : State V) (v : V) (hne : v ≠ s.value)
    (hs : s.scheduling = true) :
    set s v =
      { s with value := v, rev := s.rev + 1, revId := s.supply.headD "?",
               supply := s.supply.tail,
               queue := addAll s.queue s.subscribers,
               pending := s.pending || !s.subscribers.isEmpty } := by
  rw [set_bump_eq s v none hne, notify_sched]
  exact hs

theorem Signal.notify_conflicts {V : Type} [DecidableEq V] (s : State V) : (notify s).conflicts = s.conflicts := by
  by_cases hs : s.scheduling <;> simp [notify, hs, foldl_scheduler_spec]

theorem Signal.set_conflicts {V : Type} [DecidableEq V] (s : State V) (v : V) (r : Option Int) :
    (set s v r).conflicts = s.conflicts := by
  by_cases hne : v = s.value
  · simp [set, hne]
  · rw [set_bump_eq s v r hne, notify_conflicts]

theorem Signal.notify_value {V : Type} [DecidableEq V] (s : State V) : (notify s).value = s.value := by
  by_cases hs : s.scheduling <;> simp [notify, hs, foldl_scheduler_spec]

theorem Signal.notify_rev {V : Type} [DecidableEq V] (s : State V) : (notify s).rev = s.rev := by
  by_cases hs : s.scheduling <;> simp [notify, hs, foldl_scheduler_spec]

theorem Signal.set_explicit_rev {V : Type} [DecidableEq V] (s : State V) (v : V) (x : Int) (hne : v ≠ s.value) :
    (set s v (some x)).rev = x ∧ (set s v (some x)).value = v := by
  rw [set_bump_eq s v (some x) hne]
  rw [notify_rev, notify_value]
  exact ⟨rfl, rfl⟩

theorem Signal.conflictsAfterPush_none {V : Type} [DecidableEq V] (s : State V) (e : Envelope V)
    (hc : s.conflicting = none) :
    conflictsAfterPush s e = s.conflicts ++ [⟨e.rev, e.revId, e.value⟩] := by
  unfold conflictsAfterPush
  rw [hc]

theorem Signal.mem_conflictsAfterPush {V : Type} [DecidableEq V] (s : State V) (e : Envelope V)
    (hcap : 1 ≤ s.conflicting.getD 1) :
    (⟨e.rev, e.revId, e.value⟩ : Envelope V) ∈ conflictsAfterPush s e := by
  rcases hc : s.conflicting with _ | cap
  · unfold conflictsAfterPush
    rw [hc]
    simp
  · have hcap1 : 1 ≤ cap := by simpa [hc] using hcap
    unfold conflictsAfterPush
    rw [hc]
    show (⟨e.rev, e.revId, e.value⟩ : Envelope V) ∈
      (if (s.conflicts ++ [(⟨e.rev, e.revId, e.value⟩ : Envelope V)]).length > cap then
        (s.conflicts ++ [(⟨e.rev, e.revId, e.value⟩ : Envelope V)]).drop
          ((s.conflicts ++ [(⟨e.rev, e.revId, e.value⟩ : Envelope V)]).length - cap)
      else s.conflicts ++ [(⟨e.rev, e.revId, e.value⟩ : Envelope V)])
    by_cases hlen :
        (s.conflicts ++ [(⟨e.rev, e.revId, e.value⟩ : Envelope V)]).length > cap
    · rw [if_pos hlen]
      have hle :
          (s.conflicts ++ [(⟨e.rev, e.revId, e.value⟩ : Envelope V)]).length - cap
            ≤ s.conflicts.length := by
        simp only [List.length_append, List.length_singleton]
        omega
      rw [List.drop_append_of_le_length hle]
      exact List.mem_append_right _ (List.mem_singleton.mpr rfl)
    · rw [if_neg hlen]
      simp

/-- C1.  Merge tie-break: with local rev 3 and revId "b", an incoming
envelope at rev 3 with the smaller revId "a" is ignored (value, revision and
revisionId unchanged, no notification) and recorded as a conflict; an
incoming envelope at rev 3 with the larger revId "c" is accepted through
set(value, rev + 1), leaving the local revision at 4.  The accepted envelope
must carry a value not identical to the local one, since an identical value
would hit the Object.is no-op guard inside set. -/
theorem merge_tie_break {V : Type} [DecidableEq V] (s : Signal.State V)
    (hrev : s.rev = 3) (hid : s.revId = "b") (hcap : s.conflicting = none)
    (va vc : V) (hvc : vc ≠ s.value) :
    ((Signal.sync s ⟨3, "a", va⟩).value = s.value ∧
     (Signal.sync s ⟨3, "a", va⟩).rev = s.rev ∧
     (Signal.sync s ⟨3, "a", va⟩).revId = s.revId ∧
     (Signal.sync s ⟨3, "a", va⟩).conflicts = s.conflicts ++ [⟨3, "a", va⟩] ∧
     (Signal.sync s ⟨3, "a", va⟩).log = s.log) ∧
    (Signal.sync s ⟨3, "c", vc⟩).rev = 4 ∧
    (Signal.sync s ⟨3, "c", vc⟩).value = vc := by
  have hA : ¬ jsLt "b" "a" := by decide
  have hC : jsLt "b" "c" := by decide
  have hngt : ∀ w : V, ¬ (⟨3, "x", w⟩ : Signal.Envelope V).rev > s.rev := by
    intro w; show ¬ (3 : Int) > s.rev; rw [hrev]; exact lt_irrefl _
  constructor
  · have hnacc : ¬ ((⟨3, "a", va⟩ : Signal.Envelope V).rev = s.rev ∧
        jsLt s.revId (⟨3, "a", va⟩ : Signal.Envelope V).revId) := by
      rintro ⟨-, h⟩; rw [hid] at h; exact hA h
    rw [Signal.sync, if_pos hrev.symm, if_neg (hngt va), if_neg hnacc]
    simp [Signal.conflictsAfterPush_none s _ hcap]
  · have hacc : (⟨3, "c", vc⟩ : Signal.Envelope V).rev = s.rev ∧
        jsLt s.revId (⟨3, "c", vc⟩ : Signal.Envelope V).revId := by
      exact ⟨hrev.symm, by rw [hid]; exact hC⟩
    rw [Signal.sync, if_pos hrev.symm, if_neg (hngt vc), if_pos hacc]
    exact Signal.set_explicit_rev
      { s with conflicts := Signal.conflictsAfterPush s ⟨3, "c", vc⟩ } vc 4 hvc

/-- Witness for C1 at a concrete state: rev 3, revId "b", incoming value 7
distinct from the local value 0; the accepted tie-break leaves revision 4. -/
theorem merge_tie_break_witness :
    (c1state.rev = 3 ∧ c1state.revId = "b" ∧ c1state.conflicting = none ∧
      (7 : Int) ≠ c1state.value) ∧
    (Signal.sync c1state ⟨3, "c", 7⟩).rev = 4 :=
  ⟨⟨rfl, rfl, rfl, by decide⟩,
    (merge_tie_break c1state rfl rfl rfl 5 7 (by decide)).2.1⟩

set_option maxRecDepth 100000 in
/-- C2 (code bug).  The constructor's defaults object names the capacity
maxConflicting (default 16), but the constructor stores
this.conflicting = options.conflicting, a key no default supplies.  Under
default options the stored capacity is therefore undefined and the trim
guard conflicts.length > undefined is always false: after 17 same-revision
conflicting envelopes the conflict list holds 17 records, not 16.  Passing
an explicit maxConflicting = 3 changes nothing (4 envelopes leave 4
records), because that option key is never read either. -/
theorem conflict_bound_never_applied :
    ((List.range 17).foldl (fun s _ => Signal.sync s ⟨1, "a", 9⟩)
        (Signal.mk (0 : Int) {} ["m"])).conflicts.length = 17 ∧
    Signal.optionsMaxConflicting {} = 16 ∧
    ((List.range 4).foldl (fun s _ => Signal.sync s ⟨1, "a", 9⟩)
        (Signal.mk (0 : Int) { maxConflicting := some 3 } ["m"])).conflicts.length = 4 := by
  decide

/-- C4 (code bug).  dispose() clears both subscriber sets and the
disposables, and calling it twice is harmless (idempotent, nothing throws);
but it does not clear the schedule queue or the pending flag, so a microtask
flush armed by notify() before dispose() still delivers the value to the
subscriber that was registered before disposal: the flush log gains (7, 5)
even though dispose has already run. -/
theorem dispose_does_not_silence_armed_flush :
    Signal.dispose (Signal.dispose (Signal.notify c4state)) =
      Signal.dispose (Signal.notify c4state) ∧
    (Signal.dispose (Signal.notify c4state)).subscribers = [] ∧
    (Signal.dispose (Signal.notify c4state)).queue = [7] ∧
    (Signal.dispose (Signal.notify c4state)).pending = true ∧
    (Signal.microtaskFlush (Signal.dispose (Signal.notify c4state))).log = [(7, 5)] := by
  decide

/-- C6.  A write that is value-identical (Object.is) to the current value is
a complete no-op: the returned state is the input state, so value, revision,
revisionId, the conflict list and the notification log are all unchanged. -/
theorem set_identity_noop {V : Type} [DecidableEq V] (s : Signal.State V)
    (w : V) (h : w = s.value) :
    Signal.set s w = s := by
  simp [Signal.set, h]

/-- Witness for C6: writing the identical value 42 changes nothing. -/
theorem set_identity_noop_witness :
    (42 : Int) = c6state.value ∧ Signal.set c6state 42 = c6state :=
  ⟨rfl, set_identity_noop c6state 42 rfl⟩

/-- C9 counterexample.  With conflicting = 0 configured, an accepted
same-revision tie-break (incoming revId "b" beats local "a") does update
value and revision, but the conflict record pushed for it is immediately
evicted by the capacity trim, so no conflict entry is left behind —
refuting the claim as stated for every Signal. -/
theorem sync_accepted_tiebreak_conflict_evicted :
    (Signal.sync c9state ⟨1, "b", 5⟩).rev = 2 ∧
    (Signal.sync c9state ⟨1, "b", 5⟩).value = 5 ∧
    (Signal.sync c9state ⟨1, "b", 5⟩).conflicts = [] := by
  decide

/-- C9 as amended.  Whenever sync receives an envelope at the local
revision, the conflict record is appended unconditionally; it survives the
capacity trim — and hence an accepted tie-break both updates value/revision
and leaves the conflict entry behind — provided the configured capacity is
undefined (the default) or at least 1. -/
theorem sync_same_rev_records_conflict {V : Type} [DecidableEq V]
    (s : Signal.State V) (e : Signal.Envelope V)
    (hrev : e.rev = s.rev) (hcap : 1 ≤ s.conflicting.getD 1) :
    (⟨e.rev, e.revId, e.value⟩ : Signal.Envelope V) ∈ (Signal.sync s e).conflicts ∧
    (jsLt s.revId e.revId → e.value ≠ s.value →
      (Signal.sync s e).rev = e.rev + 1 ∧ (Signal.sync s e).value = e.value) := by
  have hngt : ¬ e.rev > s.rev := by rw [hrev]; exact lt_irrefl _
  rw [Signal.sync, if_pos hrev, if_neg hngt]
  have hmem : (⟨e.rev, e.revId, e.value⟩ : Signal.Envelope V) ∈
      ({ s with conflicts := Signal.conflictsAfterPush s e } : Signal.State V).conflicts :=
    Signal.mem_conflictsAfterPush s e hcap
  by_cases hlt : jsLt s.revId e.revId
  · rw [if_pos ⟨hrev, hlt⟩]
    refine ⟨by rw [Signal.set_conflicts]; exact hmem, fun _ hne => ?_⟩
    exact Signal.set_explicit_rev
      { s with conflicts := Signal.conflictsAfterPush s e } e.value (e.rev + 1) hne
  · rw [if_neg (fun h => hlt h.2)]
    exact ⟨hmem, fun h => absurd h hlt⟩

theorem Signal.addAll_append_of_nodup :
    ∀ (l q : List Nat), (q ++ l).Nodup → Signal.addAll q l = q ++ l := by
  intro l
  induction l with
  | nil => intro q _; simp [Signal.addAll]
  | cons t l ih =>
    intro q h
    have ht : t ∉ q := by
      rcases List.nodup_append.mp h with ⟨-, -, hdisj⟩
      exact fun hq => hdisj hq (List.mem_cons_self t l)
    have e1 : (q ++ [t]) ++ l = q ++ t :: l := by simp
    have h2 : ((q ++ [t]) ++ l).Nodup := by rw [e1]; exact h
    calc Signal.addAll q (t :: l)
        = Signal.addAll (q ++ [t]) l := by
          simp [Signal.addAll, List.foldl_cons, ht]
      _ = (q ++ [t]) ++ l := ih (q ++ [t]) h2
      _ = q ++ t :: l := e1

theorem Signal.addAll_of_subset :
    ∀ (l q : List Nat), (∀ t ∈ l, t ∈ q) → Signal.addAll q l = q := by
  intro l
  induction l with
  | nil => intro q _; rfl
  | cons t l ih =>
    intro q h
    have ht : t ∈ q := h t (List.mem_cons_self t l)
    have e : Signal.addAll q (t :: l) = Signal.addAll q l := by
      simp [Signal.addAll, List.foldl_cons, ht]
    rw [e]
    exact ih q (fun u hu => h u (List.mem_cons_of_mem t hu))

theorem filterFst_map_of_not_mem {V : Type} (v : V) :
    ∀ (l : List Nat) (t : Nat), t ∉ l →
      ((l.map (fun u => (u, v))).filter (fun p => p.1 == t)) = [] := by
  intro l
  induction l with
  | nil => intro t _; rfl
  | cons u l ih =>
    intro t ht
    obtain ⟨h1, h2⟩ : ¬ t = u ∧ t ∉ l := by simpa [List.mem_cons] using ht
    rw [List.map_cons, List.filter_cons]
    have hb : ((u, v).1 == t) = false := by
      simp only [beq_eq_false_iff_ne]
      exact fun he => h1 he.symm
    rw [hb]
    simp only [Bool.false_eq_true, if_false]
    exact ih t h2

theorem filterFst_map_of_nodup {V : Type} (v : V) :
    ∀ (l : List Nat) (t : Nat), l.Nodup → t ∈ l →
      ((l.map (fun u => (u, v))).filter (fun p => p.1 == t)) = [(t, v)] := by
  intro l
  induction l with
  | nil => intro t _ ht; cases ht
  | cons u l ih =>
    intro t hnd ht
    rw [List.map_cons, List.filter_cons]
    by_cases he : t = u
    · subst he
      have hb : ((t, v).1 == t) = true := by simp
      rw [hb]
      simp only [if_true]
      have hnin : t ∉ l := (List.nodup_cons.mp hnd).1
      rw [filterFst_map_of_not_mem v l t hnin]
    · have hb : ((u, v).1 == t) = false := by
        simp only [beq_eq_false_iff_ne]
        exact fun h2 => he (h2.symm)
      rw [hb]
      simp only [Bool.false_eq_true, if_false]
      have htl : t ∈ l := by
        rcases List.mem_cons.mp ht with h2 | h2
        · exact absurd h2 he
        · exact h2
      exact ih t (List.nodup_cons.mp hnd).2 htl

/-- C3.  Coalesced scheduled delivery: on a scheduling-enabled Signal, three
value-changing writes issued synchronously (each one calls notify once)
enqueue every change subscriber in the dedup schedule queue and arm a single
microtask; nothing is delivered before the flush, and the flush delivers to
each subscriber exactly once, carrying the value current at flush time (the
value of the third write), not the value at enqueue time. -/
theorem scheduled_delivery_coalesced {V : Type} [DecidableEq V]
    (subs : List Nat) (hnd : subs.Nodup) (v0 v1 v2 v3 : V)
    (h1 : v1 ≠ v0) (h2 : v2 ≠ v1) (h3 : v3 ≠ v2) (sup : List String) :
    (Signal.set (Signal.set (Signal.set
        { value := v0, scheduling := true, subscribers := subs, supply := sup }
        v1) v2) v3).log = [] ∧
    (Signal.microtaskFlush (Signal.set (Signal.set (Signal.set
        { value := v0, scheduling := true, subscribers := subs, supply := sup }
        v1) v2) v3)).log = subs.map (fun t => (t, v3)) ∧
    ∀ t ∈ subs,
      ((Signal.microtaskFlush (Signal.set (Signal.set (Signal.set
        { value := v0, scheduling := true, subscribers := subs, supply := sup }
        v1) v2) v3)).log.filter (fun p => p.1 == t)) = [(t, v3)] := by
  have ha1 : Signal.addAll [] subs = subs := by
    have := Signal.addAll_append_of_nodup subs [] (by simpa using hnd)
    simpa using this
  have ha2 : Signal.addAll subs subs = subs :=
    Signal.addAll_of_subset subs subs (fun t ht => ht)
  rw [Signal.set_sched_eq _ v1 h1 rfl]
  rw [Signal.set_sched_eq _ v2 h2 rfl]
  rw [Signal.set_sched_eq _ v3 h3 rfl]
  refine ⟨rfl, ?_, ?_⟩
  · simp [Signal.microtaskFlush, ha1, ha2]
  · intro t ht
    simp only [Signal.microtaskFlush, ha1, ha2]
    simp only [List.nil_append]
    exact filterFst_map_of_nodup v3 subs t hnd ht

/-- Witness for C3: two subscribers 4 and 9, writes 1, 2, 3 over initial 0;
the flush delivers (4, 3) and (9, 3), once each. -/
theorem scheduled_delivery_coalesced_witness :
    (([4, 9] : List Nat).Nodup ∧ (1 : Int) ≠ 0 ∧ (2 : Int) ≠ 1 ∧ (3 : Int) ≠ 2) ∧
    (Signal.microtaskFlush (Signal.set (Signal.set (Signal.set
        { value := (0 : Int), scheduling := true, subscribers := [4, 9], supply := [] }
        1) 2) 3)).log = [(4, 3), (9, 3)] :=
  ⟨⟨by decide, by decide, by decide, by decide⟩,
    ((scheduled_delivery_coalesced [4, 9] (by decide) 0 1 2 3
        (by decide) (by decide) (by decide) []).2.1).trans (by decide)⟩

/-- Witness for the amended C9 at revision 5 with default capacity: the
accepted tie-break envelope is found in the conflicts list afterwards. -/
theorem sync_same_rev_records_conflict_witness :
    ((⟨5, "b", 1⟩ : Signal.Envelope Int).rev = c9wstate.rev ∧
      1 ≤ c9wstate.conflicting.getD 1) ∧
    (⟨5, "b", 1⟩ : Signal.Envelope Int) ∈ (Signal.sync c9wstate ⟨5, "b", 1⟩).conflicts :=
  ⟨⟨rfl, by decide⟩,
    (sync_same_rev_records_conflict c9wstate ⟨5, "b", 1⟩ rfl (by decide)).1⟩

/-- C5 counterexample.  ReactiveSequence is the Arr class of src/Arr.js
(lines 4-20), whose numeric-index member entry is a bare RegExp with no
after hook.  Over [1,2,3] with one subscriber (autorun = false): push(4)
does notify once with [1,2,3,4], but the subsequent index write 0 = 10,
although it mutates the array to [10,2,3,4], produces no notification at
all — the log still holds only the push delivery and no (7, [10,2,3,4])
entry — refuting the claimed second notification. -/
theorem sequence_index_write_not_notified :
    (Watcher.proxyInvoke ⟨[1, 2, 3], [7], []⟩ "push" 4).1.log = [(7, [1, 2, 3, 4])] ∧
    (Watcher.proxySet (Watcher.proxyInvoke ⟨[1, 2, 3], [7], []⟩ "push" 4).1 "0" 10).1.arr
      = [10, 2, 3, 4] ∧
    (Watcher.proxySet (Watcher.proxyInvoke ⟨[1, 2, 3], [7], []⟩ "push" 4).1 "0" 10).1.log
      = [(7, [1, 2, 3, 4])] ∧
    (7, ([10, 2, 3, 4] : List Int)) ∉
      (Watcher.proxySet (Watcher.proxyInvoke ⟨[1, 2, 3], [7], []⟩ "push" 4).1 "0" 10).1.log := by
  decide

/-- C5 as amended.  For any subscriber: invoking push(4) through the proxy
performs the append and yields exactly one notification carrying
[1,2,3,4] — after which the proxied call throws a TypeError because Arr
passes no subscriberFn to Watcher.watch; the subsequent numeric-index write
0 = 10 performs the mutation (the array becomes [10,2,3,4]) and also ends
in the same TypeError, but yields no notification, because the
numeric-index member entry is a bare pattern whose normalized config has no
after hook. -/
theorem sequence_interception_amended (t : Nat) :
    (Watcher.proxyInvoke ⟨[1, 2, 3], [t], []⟩ "push" 4).1.log = [(t, [1, 2, 3, 4])] ∧
    (Watcher.proxyInvoke ⟨[1, 2, 3], [t], []⟩ "push" 4).2 = JsOutcome.typeError ∧
    (Watcher.proxySet (Watcher.proxyInvoke ⟨[1, 2, 3], [t], []⟩ "push" 4).1 "0" 10).1.arr
      = [10, 2, 3, 4] ∧
    (Watcher.proxySet (Watcher.proxyInvoke ⟨[1, 2, 3], [t], []⟩ "push" 4).1 "0" 10).1.log
      = [(t, [1, 2, 3, 4])] ∧
    (Watcher.proxySet (Watcher.proxyInvoke ⟨[1, 2, 3], [t], []⟩ "push" 4).1 "0" 10).2
      = JsOutcome.typeError :=
  ⟨rfl, rfl, rfl, rfl, rfl⟩

/-- C8.  When Watcher.watch is given no subscriberFn (as the Arr and Obj
wrappers do), every intercepted operation ends with a TypeError from
invoking the undefined subscriberFn, but only after the underlying mutation
and, when the matched config has an after hook, the Signal notification:
the returned state keeps both, so nothing is rolled back.  Shown for the
three intercepted paths the wrappers expose: an Arr numeric-index write
(matched by the bare pattern config, no after hook, hence no notification),
an Arr mutator method invocation (after hook notifies), and an Obj property
write (after hook notifies). -/
theorem missing_subscriberFn_throws_after_mutation :
    (∀ (s : Watcher.ArrState) (prop : String) (v : Int),
        Watcher.numericTest prop = true →
        Watcher.proxySet s prop v =
          ({ s with arr := Watcher.jsSetIndex s.arr prop v }, JsOutcome.typeError)) ∧
    (∀ (s : Watcher.ArrState) (prop : String) (x : Int),
        prop ∈ Watcher.mutatorNames →
        Watcher.proxyInvoke s prop x =
          (Watcher.notifyArr { s with arr := Watcher.applyMethod prop s.arr x },
            JsOutcome.typeError)) ∧
    (∀ (s : Obj.ObjState) (prop : String) (v : Int),
        Obj.objTest prop = true →
        Obj.proxySet s prop v =
          (Obj.notifyObj { s with props := Obj.setProp s.props prop v },
            JsOutcome.typeError)) := by
  refine ⟨?_, ?_, ?_⟩
  · intro s prop v h
    unfold Watcher.proxySet Watcher.getWatcherConfig
    rw [if_pos h]
    rfl
  · intro s prop x h
    have hnum : Watcher.numericTest prop = false := by
      fin_cases h <;> decide
    unfold Watcher.proxyInvoke Watcher.getWatcherConfig
    rw [if_neg (by simp [hnum]), if_pos h]
    rfl
  · intro s prop v h
    unfold Obj.proxySet
    rw [if_pos h]

/-- Witness for C8 on all three paths: index write 0 = 9 on [5] (mutated,
no notification, TypeError), push(6) on [5] (mutated, notified, TypeError),
and property write a = 3 on an empty Obj (written, notified, TypeError). -/
theorem missing_subscriberFn_throws_after_mutation_witness :
    (Watcher.numericTest "0" = true ∧
      Watcher.proxySet ⟨[5], [1], []⟩ "0" 9 = (⟨[9], [1], []⟩, JsOutcome.typeError)) ∧
    ("push" ∈ Watcher.mutatorNames ∧
      Watcher.proxyInvoke ⟨[5], [1], []⟩ "push" 6 =
        (⟨[5, 6], [1], [(1, [5, 6])]⟩, JsOutcome.typeError)) ∧
    (Obj.objTest "a" = true ∧
      Obj.proxySet ⟨[], [2], []⟩ "a" 3 =
        (⟨[("a", 3)], [2], [(2, [("a", 3)])]⟩, JsOutcome.typeError)) :=
  ⟨⟨by decide,
      (missing_subscriberFn_throws_after_mutation.1 ⟨[5], [1], []⟩ "0" 9
        (by decide)).trans (by decide)⟩,
    ⟨by decide,
      (missing_subscriberFn_throws_after_mutation.2.1 ⟨[5], [1], []⟩ "push" 6
        (by decide)).trans (by decide)⟩,
    ⟨by decide,
      (missing_subscriberFn_throws_after_mutation.2.2 ⟨[], [2], []⟩ "a" 3
        (by decide)).trans (by decide)⟩⟩

/-- C10.  The Obj constructor's Object.apply(this, data) call ignores its
this-binding and its result is discarded, so for every non-null data
argument the freshly constructed instance carries no own enumerable
properties originating from data. -/
theorem obj_constructor_drops_data (d : List (String × Int)) :
    Obj.constructProps (some d) = [] := rfl

theorem Walker.lookup_cons_eq (vis : List (Nat × Nat)) (i id o : Nat) :
    ((id, o) :: vis).lookup i = if i = id then some o else vis.lookup i := by
  by_cases h : i = id
  · simp [List.lookup, h]
  · have hb : (i == id) = false := beq_eq_false_iff_ne.mpr h
    simp [List.lookup, hb, h]

theorem Walker.walkListWith_visitedLe
    (f : Walker.WalkSt → Walker.JVal → Option (Walker.JVal × Walker.WalkSt))
    (hf : ∀ st v w st', f st v = some (w, st') → Walker.visitedLe st st') :
    ∀ (vs : List Walker.JVal) (st ws st'),
      Walker.walkListWith f st vs = some (ws, st') → Walker.visitedLe st st' := by
  intro vs
  induction vs with
  | nil =>
    intro st ws st' h
    simp only [Walker.walkListWith] at h
    obtain ⟨-, rfl⟩ := h
    exact fun i hi => hi
  | cons v vs ih =>
    intro st ws st' h
    simp only [Walker.walkListWith] at h
    cases hfv : f st v with
    | none => rw [hfv] at h; cases h
    | some p =>
      obtain ⟨w, st1⟩ := p
      rw [hfv] at h
      dsimp only at h
      cases hrest : Walker.walkListWith f st1 vs with
      | none => rw [hrest] at h; cases h
      | some q =>
        obtain ⟨ws2, st2⟩ := q
        rw [hrest] at h
        obtain ⟨-, rfl⟩ : ws = w :: ws2 ∧ st' = st2 := by
          cases h; exact ⟨rfl, rfl⟩
        exact fun i hi => ih st1 ws2 _ hrest i (hf st v w st1 hfv i hi)

theorem Walker.walkValue_visitedLe (h : Walker.Heap) :
    ∀ (fuel : Nat) (st : Walker.WalkSt) (v w : Walker.JVal) (st' : Walker.WalkSt),
      Walker.walkValue h fuel st v = some (w, st') → Walker.visitedLe st st' := by
  intro fuel
  induction fuel with
  | zero =>
    intro st v w st' heq
    cases v with
    | prim n =>
      simp only [Walker.walkValue] at heq
      obtain ⟨-, rfl⟩ := heq
      exact fun i hi => hi
    | ref id =>
      simp only [Walker.walkValue] at heq
      cases hl : st.visited.lookup id with
      | some outId =>
        rw [hl] at heq
        dsimp only at heq
        obtain ⟨-, rfl⟩ := heq
        exact fun i hi => hi
      | none =>
        rw [hl] at heq
        dsimp only at heq
        cases heq
  | succ fuel ih =>
    intro st v w st' heq
    cases v with
    | prim n =>
      simp only [Walker.walkValue] at heq
      obtain ⟨-, rfl⟩ := heq
      exact fun i hi => hi
    | ref id =>
      simp only [Walker.walkValue] at heq
      cases hl : st.visited.lookup id with
      | some outId =>
        rw [hl] at heq
        dsimp only at heq
        obtain ⟨-, rfl⟩ := heq
        exact fun i hi => hi
      | none =>
        rw [hl] at heq
        dsimp only at heq
        cases hg : h.get? id with
        | none => rw [hg] at heq; cases heq
        | some node =>
          rw [hg] at heq
          dsimp only at heq
          cases hw : Walker.walkListWith (Walker.walkValue h fuel)
              ⟨(id, st.next) :: st.visited, st.out, st.next + 1⟩
              (Walker.nodeChildren node) with
          | none => rw [hw] at heq; cases heq
          | some q =>
            obtain ⟨ws, st2⟩ := q
            rw [hw] at heq
            obtain ⟨-, rfl⟩ : w = .ref st.next ∧
                st' = ⟨st2.visited, (st.next, Walker.nodeRebuild node ws) :: st2.out,
                  st2.next⟩ := by
              cases heq; exact ⟨rfl, rfl⟩
            intro i hi
            have h1 : (((id, st.next) :: st.visited).lookup i).isSome := by
              rw [Walker.lookup_cons_eq]
              by_cases hii : i = id
              · rw [if_pos hii]; rfl
              · rw [if_neg hii]; exact hi
            exact Walker.walkListWith_visitedLe (Walker.walkValue h fuel)
              (fun a b c d hh => ih a b c d hh) _ _ _ _ hw i h1

theorem Walker.freshCount_le_of_visitedLe (h : Walker.Heap) (st st' : Walker.WalkSt)
    (hle : Walker.visitedLe st st') :
    Walker.freshCount h st'.visited ≤ Walker.freshCount h st.visited := by
  unfold Walker.freshCount
  apply List.Sublist.length_le
  apply List.monotone_filter_right
  intro i hi
  cases hs : st.visited.lookup i with
  | none => rfl
  | some o =>
    exfalso
    have h1 : (st'.visited.lookup i).isSome := hle i (by rw [hs]; rfl)
    rw [Option.isNone_iff_eq_none] at hi
    rw [hi] at h1
    simp at h1

theorem Walker.freshCount_insert (h : Walker.Heap) (vis : List (Nat × Nat)) (id o : Nat)
    (hid : id < h.length) (hnone : vis.lookup id = none) :
    Walker.freshCount h ((id, o) :: vis) + 1 = Walker.freshCount h vis := by
  unfold Walker.freshCount
  have e1 : (List.range h.length).filter (fun i => (((id, o) :: vis).lookup i).isNone)
      = (List.range h.length).filter
          (fun i => (!(i == id)) && (vis.lookup i).isNone) := by
    apply List.filter_congr
    intro a _
    rw [Walker.lookup_cons_eq]
    by_cases ha : a = id
    · rw [if_pos ha]
      subst ha
      simp
    · rw [if_neg ha]
      have : (a == id) = false := beq_eq_false_iff_ne.mpr ha
      rw [this]
      simp
  have e2 : (List.range h.length).filter
        (fun i => (!(i == id)) && (vis.lookup i).isNone)
      = ((List.range h.length).filter (fun i => (vis.lookup i).isNone)).filter
          (fun i => !(i == id)) := by
    rw [List.filter_filter]
  have hndF : ((List.range h.length).filter (fun i => (vis.lookup i).isNone)).Nodup :=
    (List.nodup_range h.length).filter _
  have hmemF : id ∈ (List.range h.length).filter (fun i => (vis.lookup i).isNone) := by
    apply List.mem_filter.mpr
    exact ⟨List.mem_range.mpr hid, by rw [hnone]; rfl⟩
  have e3 : ((List.range h.length).filter (fun i => (vis.lookup i).isNone)).filter
        (fun i => !(i == id))
      = ((List.range h.length).filter (fun i => (vis.lookup i).isNone)).erase id := by
    rw [hndF.erase_eq_filter id]
    apply List.filter_congr
    intro a _
    by_cases ha : a = id
    · subst ha; simp
    · have hb : (a == id) = false := beq_eq_false_iff_ne.mpr ha
      simp [hb, ha]
  rw [e1, e2, e3]
  rw [List.length_erase_of_mem hmemF]
  have hpos : 1 ≤ ((List.range h.length).filter (fun i => (vis.lookup i).isNone)).length :=
    List.length_pos.mpr (List.ne_nil_of_mem hmemF)
  omega

theorem Walker.walkListWith_ok (h : Walker.Heap) (fuel : Nat)
    (hmono : ∀ st v w st',
      Walker.walkValue h fuel st v = some (w, st') → Walker.visitedLe st st')
    (hsucc : ∀ (st : Walker.WalkSt) (v : Walker.JVal), Walker.valOk h v →
      Walker.freshCount h st.visited ≤ fuel → (Walker.walkValue h fuel st v).isSome) :
    ∀ (vs : List Walker.JVal) (st : Walker.WalkSt), (∀ v ∈ vs, Walker.valOk h v) →
      Walker.freshCount h st.visited ≤ fuel →
      (Walker.walkListWith (Walker.walkValue h fuel) st vs).isSome := by
  intro vs
  induction vs with
  | nil => intro st _ _; simp [Walker.walkListWith]
  | cons v vs ih =>
    intro st hvs hf
    have h1 := hsucc st v (hvs v (List.mem_cons_self v vs)) hf
    cases hfv : Walker.walkValue h fuel st v with
    | none => rw [hfv] at h1; simp at h1
    | some p =>
      obtain ⟨w, st1⟩ := p
      have hle := hmono st v w st1 hfv
      have hf1 : Walker.freshCount h st1.visited ≤ fuel :=
        le_trans (Walker.freshCount_le_of_visitedLe h st st1 hle) hf
      have h2 := ih st1 (fun u hu => hvs u (List.mem_cons_of_mem v hu)) hf1
      simp only [Walker.walkListWith]
      rw [hfv]
      dsimp only
      cases hrest : Walker.walkListWith (Walker.walkValue h fuel) st1 vs with
      | none => rw [hrest] at h2; simp at h2
      | some q =>
        obtain ⟨ws2, st2⟩ := q
        rfl

theorem Walker.walkValue_ok (h : Walker.Heap) (hh : Walker.heapOk h) :
    ∀ (fuel : Nat) (st : Walker.WalkSt) (v : Walker.JVal), Walker.valOk h v →
      Walker.freshCount h st.visited ≤ fuel → (Walker.walkValue h fuel st v).isSome := by
  intro fuel
  induction fuel with
  | zero =>
    intro st v hv hf
    cases v with
    | prim n => simp [Walker.walkValue]
    | ref id =>
      cases hl : st.visited.lookup id with
      | some outId => simp [Walker.walkValue, hl]
      | none =>
        exfalso
        have hmem : id ∈ (List.range h.length).filter
            (fun i => (st.visited.lookup i).isNone) :=
          List.mem_filter.mpr ⟨List.mem_range.mpr hv, by rw [hl]; rfl⟩
        have hpos : 1 ≤ Walker.freshCount h st.visited := by
          unfold Walker.freshCount
          exact List.length_pos.mpr (List.ne_nil_of_mem hmem)
        omega
  | succ fuel ih =>
    intro st v hv hf
    cases v with
    | prim n => simp [Walker.walkValue]
    | ref id =>
      cases hl : st.visited.lookup id with
      | some outId => simp [Walker.walkValue, hl]
      | none =>
        have hid : id < h.length := hv
        simp only [Walker.walkValue]
        rw [hl]
        dsimp only
        cases hg : h.get? id with
        | none =>
          exfalso
          have := List.get?_eq_none.mp hg
          omega
        | some node =>
          dsimp only
          have hnodem : node ∈ h := List.get?_mem hg
          have hch : ∀ u ∈ Walker.nodeChildren node, Walker.valOk h u := hh node hnodem
          have hfi : Walker.freshCount h ((id, st.next) :: st.visited) ≤ fuel := by
            have := Walker.freshCount_insert h st.visited id st.next hid hl
            omega
          have hlist := Walker.walkListWith_ok h fuel
            (fun a b c d he => Walker.walkValue_visitedLe h fuel a b c d he)
            (fun a b hb hfb => ih a b hb hfb)
            (Walker.nodeChildren node)
            ⟨(id, st.next) :: st.visited, st.out, st.next + 1⟩ hch hfi
          cases hw : Walker.walkListWith (Walker.walkValue h fuel)
              ⟨(id, st.next) :: st.visited, st.out, st.next + 1⟩
              (Walker.nodeChildren node) with
          | none => rw [hw] at hlist; simp at hlist
          | some q =>
            obtain ⟨ws, st2⟩ := q
            rfl

/-- C7.  Cycle-safe traversal: (1) for every well-formed input structure —
any heap, cycles included, whose references all point at existing nodes —
walk terminates with a result (the fuel budget of one unit per heap node,
which is what walk uses, never runs out, because each descent into a fresh
container first records it in the visited map and thereby strictly shrinks
the number of unvisited nodes); and (2) every back-edge to an
already-visited node short-circuits: walking a reference whose node is in
the visited map returns precisely the already-computed replacement
container (the output id recorded for it), with the traversal state
untouched — it is not recursed into again. -/
theorem walker_cycle_safe :
    (∀ (h : Walker.Heap) (v : Walker.JVal), Walker.heapOk h → Walker.valOk h v →
      ∃ r, Walker.walk h v = some r) ∧
    (∀ (h : Walker.Heap) (fuel : Nat) (st : Walker.WalkSt) (id outId : Nat),
      st.visited.lookup id = some outId →
      Walker.walkValue h fuel st (.ref id) = some (.ref outId, st)) := by
  constructor
  · intro h v hh hv
    have hf : Walker.freshCount h Walker.initSt.visited ≤ h.length := by
      unfold Walker.freshCount Walker.initSt
      calc ((List.range h.length).filter _).length
          ≤ (List.range h.length).length := List.length_filter_le _ _
        _ = h.length := List.length_range h.length
    have hs := Walker.walkValue_ok h hh h.length Walker.initSt v hv hf
    cases hw : Walker.walk h v with
    | none =>
      rw [Walker.walk] at hw
      rw [hw] at hs
      simp at hs
    | some r => exact ⟨r, rfl⟩
  · intro h fuel st id outId hl
    cases fuel with
    | zero => simp [Walker.walkValue, hl]
    | succ f => simp [Walker.walkValue, hl]

/-- Witness for C7 on the self-referencing array [1, itself]: the heap is
well-formed, the walk terminates, and a reference already recorded in the
visited map (node 0 mapped to output id 5) returns that same replacement
without touching the state. -/
theorem walker_cycle_safe_witness :
    (Walker.heapOk Walker.cyclicHeap ∧ Walker.valOk Walker.cyclicHeap (.ref 0)) ∧
    (∃ r, Walker.walk Walker.cyclicHeap (.ref 0) = some r) ∧
    ((⟨[(0, 5)], [], 6⟩ : Walker.WalkSt).visited.lookup 0 = some 5 ∧
      Walker.walkValue Walker.cyclicHeap 3 ⟨[(0, 5)], [], 6⟩ (.ref 0) =
        some (.ref 5, ⟨[(0, 5)], [], 6⟩)) :=
  ⟨⟨by decide, by decide⟩,
    walker_cycle_safe.1 Walker.cyclicHeap (.ref 0) (by decide) (by decide),
    ⟨by decide,
      walker_cycle_safe.2 Walker.cyclicHeap 3 ⟨[(0, 5)], [], 6⟩ 0 5 (by decide)⟩⟩
